import Mathlib

/-!
Shallow embedding of `src/main.go` (oabtop): the cache-aware retrying fetch
pipeline (`GetRecords`, lines 79-133) and the sort/paginate view-state machine
(`Update`, `updateTable`, `sortRecords`, lines 157-343).

Modelling conventions:
- Go `float64` fields carry only ordering information in the verified claims,
  so they are modelled as `Int`.
- `time.Second` is 1 time-unit; `time.Sleep(d)` adds `d` to a slept counter.
- The JSON codec (`encoding/json`, external library code) is modelled as an
  abstract payload type with an encode/decode pair: `json.Marshal` of a record
  list produces a payload that `json.Unmarshal` decodes back to the same list
  (true of Go's codec on this struct), and arbitrary other payloads may fail
  to decode.
- File-system effects are explicit: the cache file is part of the environment
  (its age, readability, and content); `os.WriteFile`'s error is ignored by
  the code, and the model records the content the call hands to the write.
- A Go runtime panic (the out-of-bounds string index in the name comparator)
  is the `none` branch of an `Option`-valued computation.
-/

namespace Oabtop

/-- `CryptoRecord` (main.go lines 53-64); numeric `float64` fields as `Int`. -/
structure CryptoRecord where
  id : String
  name : String
  symbol : String
  priceUSD : Int
  change1h : Int
  change24h : Int
  change7d : Int
  marketCap : Int
  volume24h : Int
  totalSupply : Int
deriving DecidableEq, Repr

/-- A byte payload as stored in the cache file or an HTTP body. `encoded rs`
is the image of `json.Marshal` on a record list; `raw s` is any other byte
string (which fails to decode as `[]CryptoRecord`). -/
inductive Payload where
  | raw (s : String)
  | encoded (rs : List CryptoRecord)
deriving DecidableEq, Repr

/-- `json.Marshal` on a `[]CryptoRecord`. -/
def encode (rs : List CryptoRecord) : Payload := .encoded rs

/-- `json.Unmarshal` into a `[]CryptoRecord`: `none` is a decode error. -/
def decode : Payload → Option (List CryptoRecord)
  | .raw _ => none
  | .encoded rs => some rs

/-- Outcome of one `p.client.Get(url)` call: a transport error (Go `err != nil`,
`resp == nil`) or an HTTP response with its status code and body. -/
inductive AttemptOut where
  | failure (e : String)
  | response (status : Nat) (body : Payload)
deriving DecidableEq, Repr

/-- The `resp` variable after an attempt (nil on transport error). -/
def respOf : AttemptOut → Option (Nat × Payload)
  | .failure _ => none
  | .response s b => some (s, b)

/-- The `err` variable after an attempt (nil on any response). -/
def errOf : AttemptOut → Option String
  | .failure e => some e
  | .response _ _ => none

/-- An attempt that does not break the retry loop: a transport error or a
429 response (main.go line 101 negated). -/
def badAttempt : AttemptOut → Bool
  | .failure _ => true
  | .response s _ => s == 429

/-- State left by the retry loop of main.go lines 96-105: the final values of
the `resp` and `err` variables, the number of `Get` calls made, and the total
time slept. -/
structure RetryResult where
  resp : Option (Nat × Payload)
  err : Option String
  attemptsMade : Nat
  slept : Nat
deriving DecidableEq, Repr

/-- The retry loop body (main.go lines 99-105). `get i` is the outcome of the
i-th `p.client.Get(url)` call; `i` is the `retries` counter, `fuel` the number
of loop iterations the guard `retries < 5` still allows; `lastErr`/`lastResp`
are the current values of `err`/`resp`. Each non-breaking iteration sleeps
`delay` then doubles it. -/
def retryGo (get : Nat → AttemptOut) (i delay slept : Nat)
    (lastErr : Option String) (lastResp : Option (Nat × Payload)) :
    Nat → RetryResult
  | 0 => ⟨lastResp, lastErr, i, slept⟩
  | fuel + 1 =>
    match get i with
    | .response s b =>
      if s ≠ 429 then ⟨some (s, b), none, i + 1, slept⟩
      else retryGo get (i + 1) (delay * 2) (slept + delay)
        none (some (s, b)) fuel
    | .failure e =>
      retryGo get (i + 1) (delay * 2) (slept + delay) (some e) none fuel

/-- The full retry loop: `retries` starts at 0, `delay` at one second, at most
5 iterations (main.go line 99). -/
def retryLoop (get : Nat → AttemptOut) : RetryResult :=
  retryGo get 0 1 0 none none 5

/-- Errors `GetRecords` can return: a transport error propagated from the
retry loop (lines 107-110) or a JSON decode error (lines 121-124). -/
inductive FetchErr where
  | network (e : String)
  | decodeErr
deriving DecidableEq, Repr

/-- The on-disk cache file as the environment presents it: its age in seconds
(now minus modification time), whether `os.ReadFile` succeeds, and its
content. -/
structure CacheFile where
  age : Nat
  readable : Bool
  content : Payload

/-- Environment of one `GetRecords` call: the cache file (`none` when
`os.Stat` fails, i.e. the file is absent) and the network's answer to each
successive `Get`. -/
structure Env where
  cacheFile : Option CacheFile
  attempts : Nat → AttemptOut

/-- Observable outcome of a `GetRecords` call: the returned value, whether
the network was consulted, how many HTTP attempts were made, total time
slept, and the cache content after the call. -/
structure GetOutcome where
  result : Except FetchErr (List CryptoRecord)
  networkUsed : Bool
  attemptCount : Nat
  slept : Nat
  cacheAfter : Option Payload
deriving Repr

/-- Cache content before the call (unchanged unless the fetch succeeds). -/
def cacheContent (env : Env) : Option Payload :=
  env.cacheFile.map (·.content)

/-- The network path of `GetRecords` (main.go lines 95-133): run the retry
loop; a final transport error is returned (lines 107-110); otherwise the last
response's body is read and unmarshalled (lines 113-124); on success the
encoded records are written to the cache (lines 126-129) and returned. -/
def fetchPath (env : Env) : GetOutcome :=
  match retryLoop env.attempts with
  | ⟨_, some e, a, sl⟩ => ⟨.error (.network e), true, a, sl, cacheContent env⟩
  | ⟨none, none, a, sl⟩ =>
    ⟨.error (.network "nil response"), true, a, sl, cacheContent env⟩
  | ⟨some (_, body), none, a, sl⟩ =>
    match decode body with
    | none => ⟨.error .decodeErr, true, a, sl, cacheContent env⟩
    | some coins => ⟨.ok coins, true, a, sl, some (encode coins)⟩

/-- `GetRecords` (main.go lines 79-133). Cache check first (lines 83-93): if
the file exists, is younger than 30 seconds, reads, and decodes, return the
decoded records with no network use; otherwise fall through to the network
fetch. -/
def getRecords (env : Env) : GetOutcome :=
  match env.cacheFile with
  | some cf =>
    if cf.age < 30 then
      if cf.readable then
        match decode cf.content with
        | some coins => ⟨.ok coins, false, 0, 0, cacheContent env⟩
        | none => fetchPath env
      else fetchPath env
    else fetchPath env
  | none => fetchPath env

/-- The cache-hit test of lines 83-93 in isolation: `some rs` iff the cache
short-circuits the fetch with records `rs`. -/
def cacheHit (env : Env) : Option (List CryptoRecord) :=
  match env.cacheFile with
  | some cf =>
    if cf.age < 30 then
      if cf.readable then decode cf.content else none
    else none
  | none => none

/-! ### View state: the `model` struct and its sort/paginate operations -/

/-- The view-state fields of the `model` struct (main.go lines 142-151) that
the sort and pagination logic reads and writes. The `table`, `spinner` and
`loading` fields are rendering state derived from these and are not carried. -/
structure Model where
  records : List CryptoRecord
  page : Int
  perPage : Int
  sortBy : String
  sortAsc : Bool
deriving DecidableEq, Repr

/-- `strings.ToLower` on a record name, as the character sequence the Go code
then indexes (main.go lines 289-291). -/
def lowerName (s : String) : List Char :=
  s.data.map Char.toLower

/-- The comparator `sort.Slice` receives for each sort key (main.go lines
278-342): `less i j` for the pair `(a, b)`. For the name key the Go code
indexes byte 0 of the lowered name with no length check, so an empty name
makes the comparison panic: that is the `none` branch. All other keys compare
a numeric field and are total. Keys outside the nine cases never reach a
comparator (the Go `switch` has no default). -/
def lessFor (key : String) (asc : Bool) (a b : CryptoRecord) : Option Bool :=
  match key with
  | "r" => some (if asc then decide (a.marketCap < b.marketCap)
      else decide (a.marketCap > b.marketCap))
  | "n" =>
    match (lowerName a.name).head?, (lowerName b.name).head? with
    | some x, some y => some (if asc then decide (x < y) else decide (x > y))
    | _, _ => none
  | "p" => some (if asc then decide (a.priceUSD < b.priceUSD)
      else decide (a.priceUSD > b.priceUSD))
  | "1" => some (if asc then decide (a.change1h < b.change1h)
      else decide (a.change1h > b.change1h))
  | "2" => some (if asc then decide (a.change24h < b.change24h)
      else decide (a.change24h > b.change24h))
  | "7" => some (if asc then decide (a.change7d < b.change7d)
      else decide (a.change7d > b.change7d))
  | "m" => some (if asc then decide (a.marketCap < b.marketCap)
      else decide (a.marketCap > b.marketCap))
  | "a" => some (if asc then decide (a.volume24h < b.volume24h)
      else decide (a.volume24h > b.volume24h))
  | "t" => some (if asc then decide (a.totalSupply < b.totalSupply)
      else decide (a.totalSupply > b.totalSupply))
  | _ => none

/-- Insert into a sorted list under a fallible `less`: `none` propagates a
comparator panic. -/
def insertM {α : Type} (less : α → α → Option Bool) (x : α) :
    List α → Option (List α)
  | [] => some [x]
  | y :: ys =>
    match less x y with
    | none => none
    | some true => some (x :: y :: ys)
    | some false => (insertM less x ys).map (y :: ·)

/-- Sort under a fallible `less` (insertion sort). `sort.Slice` is an
unstable comparison sort; on the strict orders used here any comparison sort
agrees with this one up to ties, and a comparator panic surfaces as `none`.
A singleton or empty slice performs no comparison, as in Go. -/
def sortM {α : Type} (less : α → α → Option Bool) : List α → Option (List α)
  | [] => some []
  | x :: xs => (sortM less xs).bind (insertM less x)

/-- The nine sort-trigger keys of main.go line 182. -/
def sortKeys : List String := ["r", "n", "p", "1", "2", "7", "m", "a", "t"]

/-- `sortRecords` (main.go lines 277-343): reorder `records` in place with the
comparator for the active key; a key outside the nine cases sorts nothing.
`none` is the Go panic from the name comparator on an empty name. -/
def sortRecords (m : Model) : Option Model :=
  if m.sortBy ∈ sortKeys then
    (sortM (lessFor m.sortBy m.sortAsc) m.records).map
      (fun rs => { m with records := rs })
  else some m

/-- The sort-key branch of `Update` before re-sorting (main.go lines
183-188): same key flips the direction, a new key becomes active with
ascending direction. -/
def toggleSortState (m : Model) (k : String) : Model :=
  if m.sortBy = k then { m with sortAsc := !m.sortAsc }
  else { m with sortBy := k, sortAsc := true }

/-- The `"right"` branch of `Update` (main.go lines 172-176). -/
def pageRight (m : Model) : Model :=
  if m.page * m.perPage < (m.records.length : Int) then
    { m with page := m.page + 1 }
  else m

/-- The `"left"` branch of `Update` (main.go lines 177-181). -/
def pageLeft (m : Model) : Model :=
  if 1 < m.page then { m with page := m.page - 1 } else m

/-- `start := (m.page - 1) * m.perPage` (main.go line 215). -/
def startIdx (m : Model) : Int := (m.page - 1) * m.perPage

/-- `end := start + perPage`, clamped to `len(records)` (main.go lines
216-219). -/
def endIdx (m : Model) : Int :=
  min (startIdx m + m.perPage) (m.records.length : Int)

/-- The row window `m.records[start:end]` sliced by `updateTable` (main.go
line 260), as the list it denotes when the bounds are in range. -/
def visibleWindow (m : Model) : List CryptoRecord :=
  (m.records.drop (startIdx m).toNat).take (endIdx m - startIdx m).toNat

/-- One key press as handled by `Update` (main.go lines 160-191), restricted
to its effect on the `Model` fields above: `"right"`/`"left"` paginate, the
nine sort keys toggle and re-sort (where the re-sort may panic: `none`), and
every other key leaves these fields unchanged. -/
def keyMsg (m : Model) (k : String) : Option Model :=
  if k = "right" then some (pageRight m)
  else if k = "left" then some (pageLeft m)
  else if k ∈ sortKeys then sortRecords (toggleSortState m k)
  else some m

/-- A sequence of key presses from a starting state. -/
def runKeys (m : Model) : List String → Option Model
  | [] => some m
  | k :: ks => (keyMsg m k).bind (fun m2 => runKeys m2 ks)

/-- The initial view state built in `main` (main.go line 405) over fetched
records `rs`: page 1, 50 per page, rank sort ascending. -/
def initModel (rs : List CryptoRecord) : Model :=
  ⟨rs, 1, 50, "r", true⟩

/-- All-429 environment: the cache is absent and every attempt answers
HTTP 429 with a body that decodes to the empty record list. -/
def envAll429 : Env :=
  ⟨none, fun _ => .response 429 (.encoded [])⟩

/-- A record whose fields other than `marketCap` are fixed defaults, for
concrete evaluations. -/
def testRec (c : Int) : CryptoRecord :=
  ⟨"id", "x", "sym", 0, 0, 0, 0, c, 0, 0⟩

/-- The pagination invariant maintained by the event loop: the page is at
least 1 and the previous pages fit inside the record list, so the window
start never passes the end of the slice. -/
def PageInv (m : Model) : Prop :=
  1 ≤ m.page ∧ 0 ≤ m.perPage ∧
    (m.page - 1) * m.perPage ≤ (m.records.length : Int)

/-! ### Retry-loop lemmas -/

/-- One non-breaking iteration of the retry loop: the attempt's `resp`/`err`
are recorded, the delay is slept then doubled, `retries` advances. -/
theorem retryGo_badStep (get : Nat → AttemptOut) (i delay slept : Nat)
    (le : Option String) (lr : Option (Nat × Payload)) (fuel : Nat)
    (h : badAttempt (get i) = true) :
    retryGo get i delay slept le lr (fuel + 1) =
      retryGo get (i + 1) (delay * 2) (slept + delay)
        (errOf (get i)) (respOf (get i)) fuel := by
  cases hg : get i with
  | failure e => simp [retryGo, hg, errOf, respOf]
  | response s b =>
    rw [hg] at h
    simp only [badAttempt, beq_iff_eq] at h
    subst h
    simp [retryGo, hg, errOf, respOf]

/-- A non-429 response breaks the retry loop at once: `resp` holds it, `err`
is nil, nothing more is slept. -/
theorem retryGo_break (get : Nat → AttemptOut) (i delay slept : Nat)
    (le : Option String) (lr : Option (Nat × Payload)) (fuel : Nat)
    (s : Nat) (b : Payload) (hg : get i = .response s b) (hs : s ≠ 429) :
    retryGo get i delay slept le lr (fuel + 1) =
      ⟨some (s, b), none, i + 1, slept⟩ := by
  simp [retryGo, hg, hs]

/-- Four non-breaking attempts leave the loop at `retries = 4`, delay 16,
15 time-units slept. -/
theorem retryGo_four_bad (get : Nat → AttemptOut)
    (h : ∀ i, i < 4 → badAttempt (get i) = true) :
    retryLoop get = retryGo get 4 16 15 (errOf (get 3)) (respOf (get 3)) 1 := by
  have s0 := retryGo_badStep get 0 1 0 none none 4 (h 0 (by norm_num))
  have s1 := retryGo_badStep get 1 2 1 (errOf (get 0)) (respOf (get 0)) 3
    (h 1 (by norm_num))
  have s2 := retryGo_badStep get 2 4 3 (errOf (get 1)) (respOf (get 1)) 2
    (h 2 (by norm_num))
  have s3 := retryGo_badStep get 3 8 7 (errOf (get 2)) (respOf (get 2)) 1
    (h 3 (by norm_num))
  norm_num at s0 s1 s2 s3
  rw [retryLoop]
  rw [s0, s1, s2, s3]

/-- Five non-breaking attempts exhaust the loop: the final `resp`/`err` are
those of the fifth attempt, 5 attempts were made, 1+2+4+8+16 = 31 time-units
slept (the loop sleeps after the last failed attempt too). -/
theorem retryLoop_all_bad (get : Nat → AttemptOut)
    (h : ∀ i, i < 5 → badAttempt (get i) = true) :
    retryLoop get = ⟨respOf (get 4), errOf (get 4), 5, 31⟩ := by
  rw [retryGo_four_bad get (fun i hi => h i (by omega))]
  have s4 := retryGo_badStep get 4 16 15 (errOf (get 3)) (respOf (get 3)) 0
    (h 4 (by norm_num))
  norm_num at s4
  rw [s4, retryGo]

/-- A cache miss (absent, stale, unreadable or undecodable snapshot) makes
`GetRecords` take the network path. -/
theorem getRecords_cacheMiss (env : Env) (h : cacheHit env = none) :
    getRecords env = fetchPath env := by
  unfold getRecords
  unfold cacheHit at h
  cases hc : env.cacheFile with
  | none => rfl
  | some cf =>
    rw [hc] at h
    simp only at h ⊢
    by_cases ha : cf.age < 30
    · by_cases hr : cf.readable = true
      · simp only [ha, hr, if_true] at h ⊢
        rw [h]
      · simp only [ha, if_true, hr, if_false] at h ⊢
        simp
    · rw [if_neg ha]

/-- A cache hit returns the decoded records with no network activity. -/
theorem getRecords_cacheHit (env : Env) (rs : List CryptoRecord)
    (h : cacheHit env = some rs) :
    getRecords env = ⟨.ok rs, false, 0, 0, cacheContent env⟩ := by
  unfold getRecords
  unfold cacheHit at h
  cases hc : env.cacheFile with
  | none => rw [hc] at h; exact absurd h (by simp)
  | some cf =>
    rw [hc] at h
    simp only at h ⊢
    by_cases ha : cf.age < 30
    · by_cases hr : cf.readable = true
      · simp only [ha, hr, if_true] at h ⊢
        rw [h]
      · rw [if_pos ha, if_neg hr] at h
        exact absurd h (by simp)
    · rw [if_neg ha] at h
      exact absurd h (by simp)

/-- Claim C1 counterexample: a run in which all 5 attempts are exhausted and
every attempt is an HTTP 429 response. The loop's final `err` is nil, and the
call does not return an error at all: it decodes the last 429 response's body
and returns `ok []`. So exhausting retries does not always return "the error
of the last attempt". -/
theorem retry_exhaustion_counterexample :
    ((List.range 5).all fun i => badAttempt (envAll429.attempts i)) = true ∧
    (retryLoop envAll429.attempts).attemptsMade = 5 ∧
    (retryLoop envAll429.attempts).err = none ∧
    (getRecords envAll429).result = Except.ok [] :=
  ⟨rfl, rfl, rfl, rfl⟩

/-- Claim C1 (amended): when all 5 retry attempts are exhausted (each a
transport error or an HTTP 429 response), 31 time-units are slept and the
call's result is determined by the last attempt: a transport error there is
returned as the call's error; a 429 response there is instead decoded like a
success, yielding its body's records or a decode error. -/
theorem retry_exhaustion_last_attempt (env : Env)
    (hmiss : cacheHit env = none)
    (hbad : ∀ i, i < 5 → badAttempt (env.attempts i) = true) :
    (getRecords env).attemptCount = 5 ∧ (getRecords env).slept = 31 ∧
    (getRecords env).result = (match env.attempts 4 with
      | .failure e => .error (.network e)
      | .response _ b =>
        match decode b with
        | some coins => Except.ok coins
        | none => .error .decodeErr) := by
  rw [getRecords_cacheMiss env hmiss]
  unfold fetchPath
  rw [retryLoop_all_bad env.attempts hbad]
  cases h4 : env.attempts 4 with
  | failure e => simp [errOf, respOf]
  | response s b => cases hd : decode b <;> simp [errOf, respOf, hd]

/-- Witness for C1's amended theorem at a concrete exhausting environment
whose fifth attempt is a transport error. -/
theorem retry_exhaustion_last_attempt_witness :
    (getRecords ⟨none, fun i =>
        if i < 4 then .response 429 (.raw "rate limited")
        else .failure "timeout"⟩).result =
      .error (.network "timeout") :=
  (retry_exhaustion_last_attempt
    ⟨none, fun i => if i < 4 then .response 429 (.raw "rate limited")
      else .failure "timeout"⟩
    rfl (by intro i hi; interval_cases i <;> rfl)).2.2

/-- The network path always consults the network. -/
theorem fetchPath_networkUsed (env : Env) :
    (fetchPath env).networkUsed = true := by
  unfold fetchPath
  split
  · rfl
  · rfl
  · split <;> rfl

/-- A successful network path leaves the encoding of the returned records as
the new cache content. -/
theorem fetchPath_ok_cacheAfter (env : Env) (coins : List CryptoRecord)
    (h : (fetchPath env).result = Except.ok coins) :
    (fetchPath env).cacheAfter = some (encode coins) := by
  unfold fetchPath at h ⊢
  revert h
  generalize retryLoop env.attempts = r
  obtain ⟨resp, err, a, sl⟩ := r
  intro h
  cases err with
  | some e => simp at h
  | none =>
    cases resp with
    | none => simp at h
    | some p =>
      obtain ⟨st, body⟩ := p
      cases hd : decode body with
      | none => simp [hd] at h
      | some c =>
        simp only [hd] at h ⊢
        simp at h
        subst h
        rfl

/-- Claim C3: four HTTP 429 responses followed by a non-429 response make
exactly 5 attempts, sleep 1+2+4+8 = 15 time-units (a backoff after each
failed attempt, none after the success), and the call proceeds with the
successful response's body. -/
theorem retry_four_429_then_success (env : Env)
    (hmiss : cacheHit env = none)
    (h4 : ∀ i, i < 4 → ∃ bi, env.attempts i = .response 429 bi)
    (s : Nat) (b : Payload)
    (hs : env.attempts 4 = .response s b) (hns : s ≠ 429) :
    (getRecords env).attemptCount = 5 ∧ (getRecords env).slept = 15 ∧
    (getRecords env).networkUsed = true ∧
    (getRecords env).result = (match decode b with
      | some coins => Except.ok coins
      | none => .error .decodeErr) := by
  have hbad : ∀ i, i < 4 → badAttempt (env.attempts i) = true := by
    intro i hi
    obtain ⟨bi, hbi⟩ := h4 i hi
    simp [badAttempt, hbi]
  have hloop : retryLoop env.attempts = ⟨some (s, b), none, 5, 15⟩ := by
    rw [retryGo_four_bad env.attempts hbad]
    have hb := retryGo_break env.attempts 4 16 15
      (errOf (env.attempts 3)) (respOf (env.attempts 3)) 0 s b hs hns
    norm_num at hb
    exact hb
  rw [getRecords_cacheMiss env hmiss]
  unfold fetchPath
  rw [hloop]
  cases hd : decode b <;> simp [hd]

/-- Witness for C3 at a concrete environment whose fifth attempt is an
HTTP 200 response carrying one record. -/
theorem retry_four_429_then_success_witness :
    (getRecords ⟨none, fun i =>
        if i < 4 then .response 429 (.raw "rate limited")
        else .response 200 (.encoded [])⟩).slept = 15 :=
  (retry_four_429_then_success
    ⟨none, fun i => if i < 4 then .response 429 (.raw "rate limited")
      else .response 200 (.encoded [])⟩
    rfl (fun i hi => ⟨.raw "rate limited", by simp [hi]⟩)
    200 (.encoded []) (by simp) (by norm_num)).2.1

/-! ### Cache behaviour claims -/

/-- Claim C2: a cache snapshot younger than 30 seconds that reads and decodes
successfully is returned with no network request at all; an absent, stale,
unreadable or undecodable snapshot makes `GetRecords` fall through to the
network fetch (whose outcome ignores the cache fault) rather than return an
error for the cache fault. -/
theorem getRecords_cache_short_circuit (env : Env) :
    (∀ cf rs, env.cacheFile = some cf → cf.age < 30 → cf.readable = true →
      decode cf.content = some rs →
      getRecords env = ⟨Except.ok rs, false, 0, 0, cacheContent env⟩) ∧
    ((env.cacheFile = none ∨ ∃ cf, env.cacheFile = some cf ∧
        (¬ cf.age < 30 ∨ cf.readable = false ∨ decode cf.content = none)) →
      getRecords env = fetchPath env ∧ (getRecords env).networkUsed = true) := by
  constructor
  · intro cf rs hcf ha hr hd
    apply getRecords_cacheHit
    simp [cacheHit, hcf, ha, hr, hd]
  · intro h
    have hmiss : cacheHit env = none := by
      rcases h with h | ⟨cf, hcf, hbad⟩
      · simp [cacheHit, h]
      · rcases hbad with hage | hread | hdec
        · simp [cacheHit, hcf, hage]
        · simp [cacheHit, hcf, hread]
        · simp [cacheHit, hcf, hdec]
    have he := getRecords_cacheMiss env hmiss
    refine ⟨he, ?_⟩
    rw [he]
    exact fetchPath_networkUsed env

/-- Witness for C2: a 10-second-old readable snapshot of one record is
returned without touching the network, and a stale snapshot in the same
environment falls through to the fetch. -/
theorem getRecords_cache_short_circuit_witness :
    getRecords ⟨some ⟨10, true, encode []⟩, fun _ => .failure "down"⟩ =
      ⟨Except.ok [], false, 0, 0, some (encode [])⟩ ∧
    (getRecords ⟨some ⟨40, true, encode []⟩, fun _ => .failure "down"⟩).networkUsed
      = true :=
  ⟨(getRecords_cache_short_circuit
      ⟨some ⟨10, true, encode []⟩, fun _ => .failure "down"⟩).1
      ⟨10, true, encode []⟩ [] rfl (by norm_num) rfl rfl,
   ((getRecords_cache_short_circuit
      ⟨some ⟨40, true, encode []⟩, fun _ => .failure "down"⟩).2
      (Or.inr ⟨⟨40, true, encode []⟩, rfl, Or.inl (by norm_num)⟩)).2⟩

/-- Claim C9: when a cache miss leads to a successful fetch-and-decode, the
snapshot store ends up holding the serialization of the returned records;
deserializing that content yields the same records, so a later read within
the freshness window returns records identical to the ones returned, with no
network use. -/
theorem getRecords_writeback_roundtrip (env : Env) (coins : List CryptoRecord)
    (hmiss : cacheHit env = none)
    (hok : (getRecords env).result = Except.ok coins) :
    (getRecords env).cacheAfter = some (encode coins) ∧
    decode (encode coins) = some coins ∧
    (∀ (att : Nat → AttemptOut) (age : Nat), age < 30 →
      getRecords ⟨some ⟨age, true, encode coins⟩, att⟩ =
        ⟨Except.ok coins, false, 0, 0, some (encode coins)⟩) := by
  rw [getRecords_cacheMiss env hmiss] at hok
  refine ⟨?_, rfl, ?_⟩
  · rw [getRecords_cacheMiss env hmiss]
    exact fetchPath_ok_cacheAfter env coins hok
  · intro att age hage
    have hhit : cacheHit ⟨some ⟨age, true, encode coins⟩, att⟩ = some coins := by
      simp [cacheHit, hage, decode, encode]
    have := getRecords_cacheHit ⟨some ⟨age, true, encode coins⟩, att⟩ coins hhit
    rw [this]
    rfl

/-- Witness for C9 at a concrete environment: empty cache, first attempt
succeeds with one decodable record list. -/
theorem getRecords_writeback_roundtrip_witness :
    (getRecords ⟨none, fun _ => .response 200 (.encoded [])⟩).cacheAfter =
      some (encode []) :=
  (getRecords_writeback_roundtrip
    ⟨none, fun _ => .response 200 (.encoded [])⟩ [] rfl rfl).1

/-! ### Sort-toggle and pagination claims -/

/-- Claim C4: toggling sort with the active key flips the direction flag (so
toggling the same key twice restores the whole state, direction included);
toggling with a different key makes it active and resets the direction to
ascending regardless of the prior direction. -/
theorem toggle_sort_direction (m : Model) (k : String) :
    (m.sortBy = k →
      toggleSortState m k = { m with sortAsc := !m.sortAsc } ∧
      toggleSortState (toggleSortState m k) k = m) ∧
    (m.sortBy ≠ k →
      (toggleSortState m k).sortBy = k ∧
      (toggleSortState m k).sortAsc = true) := by
  constructor
  · intro hk
    have h1 : toggleSortState m k = { m with sortAsc := !m.sortAsc } := by
      simp [toggleSortState, hk]
    refine ⟨h1, ?_⟩
    rw [h1]
    simp [toggleSortState, hk]
    rw [← hk]
  · intro hk
    simp [toggleSortState, hk]

/-- Witness for C4: from the initial state (rank key, ascending), toggling
the rank key twice is the identity, and toggling the name key resets the
direction to ascending. -/
theorem toggle_sort_direction_witness :
    toggleSortState (toggleSortState (initModel []) "r") "r" = initModel [] ∧
    (toggleSortState (initModel []) "n").sortBy = "n" ∧
    (toggleSortState (initModel []) "n").sortAsc = true :=
  ⟨((toggle_sort_direction (initModel []) "r").1 rfl).2,
   ((toggle_sort_direction (initModel []) "n").2 (by decide)).1,
   ((toggle_sort_direction (initModel []) "n").2 (by decide)).2⟩

/-- Claim C7: the right key advances the page exactly when the current
page's end is still within the record count and is otherwise a no-op; the
left key retreats exactly above page 1 and is otherwise a no-op; the window
end is `min(page*perPage, len)`; with 120 records, perPage 50, page 3, the
window is the records' indices `[100, 120)`, advancing is a no-op, and at
page 1 retreating is a no-op. -/
theorem pagination_behavior (m : Model) :
    ((m.page * m.perPage < (m.records.length : Int) →
        pageRight m = { m with page := m.page + 1 }) ∧
     (¬ m.page * m.perPage < (m.records.length : Int) → pageRight m = m)) ∧
    ((1 < m.page → pageLeft m = { m with page := m.page - 1 }) ∧
     (¬ 1 < m.page → pageLeft m = m)) ∧
    endIdx m = min (m.page * m.perPage) (m.records.length : Int) ∧
    (m.page = 3 → m.perPage = 50 → m.records.length = 120 →
      visibleWindow m = (m.records.drop 100).take 20 ∧ pageRight m = m) ∧
    (m.page = 1 → pageLeft m = m) := by
  refine ⟨⟨?_, ?_⟩, ⟨?_, ?_⟩, ?_, ?_, ?_⟩
  · intro h; simp [pageRight, h]
  · intro h; simp [pageRight, h]
  · intro h; simp [pageLeft, h]
  · intro h; simp [pageLeft, h]
  · unfold endIdx startIdx
    congr 1
    ring
  · intro hp hpp hlen
    have hs : startIdx m = 100 := by simp [startIdx, hp, hpp]
    have he : endIdx m = 120 := by
      simp [endIdx, hs, hpp, hlen]
    constructor
    · unfold visibleWindow
      rw [hs, he]
      norm_num
      simp
    · simp [pageRight, hp, hpp, hlen]
  · intro hp
    simp [pageLeft, hp]

/-- Witness for C7 on a concrete 120-record state at page 3. -/
theorem pagination_behavior_witness :
    visibleWindow ⟨List.replicate 120 (testRec 0), 3, 50, "r", true⟩ =
      ((List.replicate 120 (testRec 0)).drop 100).take 20 ∧
    pageRight ⟨List.replicate 120 (testRec 0), 3, 50, "r", true⟩ =
      ⟨List.replicate 120 (testRec 0), 3, 50, "r", true⟩ ∧
    pageLeft (initModel []) = initModel [] :=
  ⟨((pagination_behavior ⟨List.replicate 120 (testRec 0), 3, 50, "r", true⟩).2.2.2.1
      rfl rfl (by simp)).1,
   ((pagination_behavior ⟨List.replicate 120 (testRec 0), 3, 50, "r", true⟩).2.2.2.1
      rfl rfl (by simp)).2,
   (pagination_behavior (initModel [])).2.2.2.2 rfl⟩

/-! ### Sort-permutation facts and the pagination invariant -/

/-- A successful `insertM` adds exactly one element to the length. -/
theorem insertM_length {α : Type} (less : α → α → Option Bool) (x : α) :
    ∀ (ys zs : List α), insertM less x ys = some zs →
      zs.length = ys.length + 1
  | [], zs, h => by
    simp [insertM] at h
    subst h
    rfl
  | y :: ys, zs, h => by
    rw [insertM] at h
    cases hl : less x y with
    | none => rw [hl] at h; exact absurd h (by simp)
    | some b =>
      rw [hl] at h
      cases b with
      | true =>
        simp at h
        subst h
        rfl
      | false =>
        simp only [Option.map_eq_some'] at h
        obtain ⟨ws, hw, hz⟩ := h
        subst hz
        simp [insertM_length less x ys ws hw]

/-- A successful `sortM` preserves the length. -/
theorem sortM_length {α : Type} (less : α → α → Option Bool) :
    ∀ (xs ys : List α), sortM less xs = some ys → ys.length = xs.length
  | [], ys, h => by
    simp [sortM] at h
    subst h
    rfl
  | x :: xs, ys, h => by
    rw [sortM] at h
    simp only [Option.bind_eq_some] at h
    obtain ⟨ws, hws, hins⟩ := h
    rw [insertM_length less x ws ys hins, sortM_length less xs ws hws]
    rfl

/-- `toggleSortState` only touches the sort key and direction. -/
theorem toggleSortState_fields (m : Model) (k : String) :
    (toggleSortState m k).records = m.records ∧
    (toggleSortState m k).page = m.page ∧
    (toggleSortState m k).perPage = m.perPage := by
  unfold toggleSortState
  split <;> exact ⟨rfl, rfl, rfl⟩

/-- A successful `sortRecords` preserves the record count, the page and the
page size. -/
theorem sortRecords_fields (m m2 : Model) (h : sortRecords m = some m2) :
    m2.records.length = m.records.length ∧
    m2.page = m.page ∧ m2.perPage = m.perPage := by
  unfold sortRecords at h
  by_cases hk : m.sortBy ∈ sortKeys
  · rw [if_pos hk] at h
    simp only [Option.map_eq_some'] at h
    obtain ⟨rs, hrs, hm⟩ := h
    subst hm
    exact ⟨sortM_length _ m.records rs hrs, rfl, rfl⟩
  · rw [if_neg hk] at h
    simp at h
    subst h
    exact ⟨rfl, rfl, rfl⟩

/-- Every key press preserves the pagination invariant. -/
theorem keyMsg_inv (m m2 : Model) (k : String)
    (hI : PageInv m) (h : keyMsg m k = some m2) : PageInv m2 := by
  obtain ⟨hp, hpp, hb⟩ := hI
  unfold keyMsg at h
  by_cases h1 : k = "right"
  · rw [if_pos h1] at h
    simp only [Option.some.injEq] at h
    subst h
    unfold pageRight
    split
    · rename_i hlt
      unfold PageInv
      dsimp only
      refine ⟨by omega, hpp, ?_⟩
      have h2 : (m.page + 1 - 1) * m.perPage = m.page * m.perPage := by ring
      rw [h2]
      exact le_of_lt hlt
    · exact ⟨hp, hpp, hb⟩
  · rw [if_neg h1] at h
    by_cases h2 : k = "left"
    · rw [if_pos h2] at h
      simp only [Option.some.injEq] at h
      subst h
      unfold pageLeft
      split
      · rename_i hgt
        unfold PageInv
        dsimp only
        refine ⟨by omega, hpp, ?_⟩
        have hmono : (m.page - 1 - 1) * m.perPage ≤ (m.page - 1) * m.perPage :=
          mul_le_mul_of_nonneg_right (by omega) hpp
        exact le_trans hmono hb
      · exact ⟨hp, hpp, hb⟩
    · rw [if_neg h2] at h
      by_cases h3 : k ∈ sortKeys
      · rw [if_pos h3] at h
        have hf := sortRecords_fields (toggleSortState m k) m2 h
        obtain ⟨htr, htp, htpp⟩ := toggleSortState_fields m k
        obtain ⟨hl, hpg, hper⟩ := hf
        rw [htr] at hl
        rw [htp] at hpg
        rw [htpp] at hper
        exact ⟨by rw [hpg]; exact hp, by rw [hper]; exact hpp,
          by rw [hpg, hper, hl]; exact hb⟩
      · rw [if_neg h3] at h
        simp only [Option.some.injEq] at h
        subst h
        exact ⟨hp, hpp, hb⟩

/-- Every run of key presses preserves the pagination invariant. -/
theorem runKeys_inv :
    ∀ (keys : List String) (m m2 : Model),
      PageInv m → runKeys m keys = some m2 → PageInv m2
  | [], m, m2, hI, h => by
    simp [runKeys] at h
    subst h
    exact hI
  | k :: ks, m, m2, hI, h => by
    rw [runKeys] at h
    simp only [Option.bind_eq_some] at h
    obtain ⟨mm, hk, hrest⟩ := h
    exact runKeys_inv ks mm m2 (keyMsg_inv m mm k hI hk) hrest

/-- Claim C8: in every state reachable from the initial state (page 1,
perPage 50) by key presses (pagination, sort toggles, or any other key), the
derived window bounds satisfy `0 ≤ start ≤ end ≤ len(records)`, so the slice
`records[start:end]` taken by the view is within bounds. -/
theorem window_in_bounds (rs : List CryptoRecord) (keys : List String)
    (m2 : Model) (h : runKeys (initModel rs) keys = some m2) :
    0 ≤ startIdx m2 ∧ startIdx m2 ≤ endIdx m2 ∧
      endIdx m2 ≤ (m2.records.length : Int) := by
  have hI0 : PageInv (initModel rs) := by
    refine ⟨by simp [initModel], by simp [initModel], by simp [initModel]⟩
  have hI := runKeys_inv keys (initModel rs) m2 hI0 h
  obtain ⟨hp, hpp, hb⟩ := hI
  unfold startIdx endIdx startIdx
  refine ⟨mul_nonneg (by omega) hpp, ?_, min_le_right _ _⟩
  exact le_min (by linarith) hb

/-- Witness for C8: one right-press from the initial empty state. -/
theorem window_in_bounds_witness :
    0 ≤ startIdx (initModel []) ∧
    startIdx (initModel []) ≤ endIdx (initModel []) ∧
    endIdx (initModel []) ≤ ((initModel []).records.length : Int) :=
  window_in_bounds [] ["right"] (initModel []) (by decide)

/-! ### Totality of the comparators on non-empty names -/

/-- A non-empty string has a non-empty character list. -/
theorem string_ne_data_ne {s : String} (h : s ≠ "") : s.data ≠ [] := by
  intro hd
  apply h
  cases s with
  | mk data =>
    cases hd
    rfl

/-- On records with non-empty names the name comparator never reaches the
out-of-bounds branch. -/
theorem lessFor_n_total (asc : Bool) (a b : CryptoRecord)
    (ha : a.name ≠ "") (hb : b.name ≠ "") :
    (lessFor "n" asc a b).isSome = true := by
  have ha2 : ((lowerName a.name).head?).isSome = true := by
    unfold lowerName
    cases hn : a.name.data with
    | nil => exact absurd hn (string_ne_data_ne ha)
    | cons c cs => simp [hn]
  have hb2 : ((lowerName b.name).head?).isSome = true := by
    unfold lowerName
    cases hn : b.name.data with
    | nil => exact absurd hn (string_ne_data_ne hb)
    | cons c cs => simp [hn]
  obtain ⟨x, hx⟩ := Option.isSome_iff_exists.mp ha2
  obtain ⟨y, hy⟩ := Option.isSome_iff_exists.mp hb2
  simp [lessFor, hx, hy]

/-- `insertM` succeeds when the new element compares against every list
element. -/
theorem insertM_total {α : Type} (less : α → α → Option Bool) (x : α) :
    ∀ (ys : List α), (∀ y ∈ ys, (less x y).isSome = true) →
      (insertM less x ys).isSome = true
  | [], _ => rfl
  | y :: ys, h => by
    rw [insertM]
    cases hl : less x y with
    | none =>
      have := h y (by simp)
      rw [hl] at this
      simp at this
    | some b =>
      cases b with
      | true => rfl
      | false =>
        rw [Option.isSome_map']
        exact insertM_total less x ys (fun z hz => h z (by simp [hz]))

/-- Every element of a successful `insertM` output is the inserted element
or an element of the input. -/
theorem insertM_mem {α : Type} (less : α → α → Option Bool) (x : α) :
    ∀ (ys zs : List α), insertM less x ys = some zs →
      ∀ z ∈ zs, z = x ∨ z ∈ ys
  | [], zs, h => by
    simp [insertM] at h
    subst h
    simp
  | y :: ys, zs, h => by
    rw [insertM] at h
    cases hl : less x y with
    | none => rw [hl] at h; exact absurd h (by simp)
    | some b =>
      rw [hl] at h
      cases b with
      | true =>
        simp at h
        subst h
        intro z hz
        simp at hz
        rcases hz with hz | hz | hz <;> simp [hz]
      | false =>
        simp only [Option.map_eq_some'] at h
        obtain ⟨ws, hw, hz⟩ := h
        subst hz
        intro z hz
        simp at hz
        rcases hz with hz | hz
        · simp [hz]
        · rcases insertM_mem less x ys ws hw z hz with h2 | h2 <;> simp [h2]

/-- Every element of a successful `sortM` output is an element of the
input. -/
theorem sortM_mem {α : Type} (less : α → α → Option Bool) :
    ∀ (l out : List α), sortM less l = some out → ∀ z ∈ out, z ∈ l
  | [], out, h => by
    simp [sortM] at h
    subst h
    simp
  | x :: xs, out, h => by
    rw [sortM] at h
    simp only [Option.bind_eq_some] at h
    obtain ⟨ws, hws, hins⟩ := h
    intro z hz
    rcases insertM_mem less x ws out hins z hz with h2 | h2
    · simp [h2]
    · simp [sortM_mem less xs ws hws z h2]

/-- `sortM` succeeds when the comparator is defined on every pair of list
elements. -/
theorem sortM_total {α : Type} (less : α → α → Option Bool) :
    ∀ (l : List α), (∀ x ∈ l, ∀ y ∈ l, (less x y).isSome = true) →
      (sortM less l).isSome = true
  | [], _ => rfl
  | x :: xs, h => by
    rw [sortM]
    cases hs : sortM less xs with
    | none =>
      have := sortM_total less xs
        (fun a ha b hb => h a (by simp [ha]) b (by simp [hb]))
      rw [hs] at this
      simp at this
    | some ws =>
      apply insertM_total
      intro y hy
      have hyx : y ∈ xs := sortM_mem less xs ws hs y hy
      exact h x (by simp) y (by simp [hyx])

/-! ### Comparator claims -/

/-- Claim C5: the name-key comparator orders records by the first character
of the lowercased name alone, ascending or descending per the direction;
whenever two pairs of records agree on those first characters, the comparator
agrees on them, so characters after the first never influence the order. -/
theorem name_comparator_first_char :
    (∀ (asc : Bool) (a b : CryptoRecord) (x y : Char),
      (lowerName a.name).head? = some x → (lowerName b.name).head? = some y →
      lessFor "n" asc a b =
        some (if asc then decide (x < y) else decide (x > y))) ∧
    (∀ (asc : Bool) (a b a2 b2 : CryptoRecord),
      (lowerName a.name).head? = (lowerName a2.name).head? →
      (lowerName b.name).head? = (lowerName b2.name).head? →
      lessFor "n" asc a b = lessFor "n" asc a2 b2) := by
  constructor
  · intro asc a b x y hx hy
    simp [lessFor, hx, hy]
  · intro asc a b a2 b2 hx hy
    simp only [lessFor]
    rw [hx, hy]

/-- Witness for C5: "Apple" sorts before "banana" ascending, and a pair with
the same first letters but different tails compares identically. -/
theorem name_comparator_first_char_witness :
    lessFor "n" true { testRec 0 with name := "Apple" }
      { testRec 0 with name := "banana" } = some true ∧
    lessFor "n" true { testRec 0 with name := "Apple" }
      { testRec 0 with name := "banana" } =
    lessFor "n" true { testRec 0 with name := "avocado" }
      { testRec 0 with name := "Blueberry" } :=
  ⟨by
    have h := name_comparator_first_char.1 true
      { testRec 0 with name := "Apple" } { testRec 0 with name := "banana" }
      (Char.toLower 'A') (Char.toLower 'b') rfl rfl
    simpa using h,
   name_comparator_first_char.2 true
    { testRec 0 with name := "Apple" } { testRec 0 with name := "banana" }
    { testRec 0 with name := "avocado" } { testRec 0 with name := "Blueberry" }
    (by decide) (by decide)⟩

/-- Claim C6: the comparator the rank key selects is the same function as
the one the market-cap key selects (both compare `MarketCap`), so sorting by
either key reorders the records identically; on market caps `[5, 1, 3]`,
ascending yields `[1, 3, 5]` and descending `[5, 3, 1]` under either key. -/
theorem rank_marketcap_comparators_agree :
    lessFor "r" = lessFor "m" ∧
    (∀ (rs : List CryptoRecord) (asc : Bool),
      sortM (lessFor "r" asc) rs = sortM (lessFor "m" asc) rs) ∧
    (∀ (m : Model) (asc : Bool),
      (sortRecords { m with sortBy := "r", sortAsc := asc }).map Model.records
        = (sortRecords { m with sortBy := "m", sortAsc := asc }).map
            Model.records) ∧
    (sortM (lessFor "r" true) [testRec 5, testRec 1, testRec 3] =
      some [testRec 1, testRec 3, testRec 5]) ∧
    (sortM (lessFor "r" false) [testRec 5, testRec 1, testRec 3] =
      some [testRec 5, testRec 3, testRec 1]) ∧
    (sortM (lessFor "m" true) [testRec 5, testRec 1, testRec 3] =
      some [testRec 1, testRec 3, testRec 5]) ∧
    (sortM (lessFor "m" false) [testRec 5, testRec 1, testRec 3] =
      some [testRec 5, testRec 3, testRec 1]) := by
  have h : lessFor "r" = lessFor "m" := by
    funext asc a b
    simp [lessFor]
  refine ⟨h, fun rs asc => by rw [h], fun m asc => ?_,
    by decide, by decide, by decide, by decide⟩
  simp only [sortRecords]
  rw [if_pos (by decide : ("r" : String) ∈ sortKeys),
    if_pos (by decide : ("m" : String) ∈ sortKeys)]
  rw [h]
  simp only [Option.map_map]
  congr 1

/-- Claim C10: the name comparator reads byte 0 of the lowercased name with
no length check, so sorting by the name key is total whenever every record
name is non-empty, and a record set containing an empty name reaches the
out-of-bounds branch: the sort evaluates to `none` (the Go panic). -/
theorem name_sort_empty_name_unsafe :
    (∀ (m : Model), m.sortBy = "n" → (∀ r ∈ m.records, r.name ≠ "") →
      (sortRecords m).isSome = true) ∧
    (sortRecords ⟨[testRec 1, { testRec 2 with name := "" }],
        1, 50, "n", true⟩ = none) := by
  constructor
  · intro m hk hnames
    unfold sortRecords
    rw [if_pos (by rw [hk]; decide)]
    rw [Option.isSome_map']
    apply sortM_total
    intro x hx y hy
    rw [hk]
    exact lessFor_n_total m.sortAsc x y (hnames x hx) (hnames y hy)
  · decide

/-- Witness for C10's safe direction: two records with non-empty names sort
successfully under the name key. -/
theorem name_sort_empty_name_unsafe_witness :
    (sortRecords ⟨[{ testRec 1 with name := "b" },
        { testRec 2 with name := "a" }], 1, 50, "n", true⟩).isSome = true :=
  name_sort_empty_name_unsafe.1
    ⟨[{ testRec 1 with name := "b" }, { testRec 2 with name := "a" }],
      1, 50, "n", true⟩ rfl (by decide)

end Oabtop
